import Mathlib

/-!
Shallow embedding of the bookkeeping service (src/src/main.rs, the active
code at lines 167-445): a CRUD store over a vector of transactions with
JSON file persistence.  Rust `f64` is modelled by `F64` (exact rational
finite values plus NaN and the infinities), `Uuid` by the subtype of
strings in canonical parseable uuid form, `str::trim` by a
character-list trim, and the file system by a
`FileState` that is either absent, unreadable, unparseable bytes, or a
JSON document.  I/O failure of `persist` is modelled by a `persistOk`
flag supplied to each mutating operation.
-/

namespace Bookkeeping

/-- Model of a Rust `f64`: a finite value is carried exactly as a rational
(float rounding is abstracted away); NaN and the two infinities are the
non-finite values that `f64::is_finite` rejects. -/
inductive F64 where
  | finite (val : ℚ)
  | nan
  | posInf
  | negInf
deriving DecidableEq, Repr

/-- Rust `f64::is_finite`. -/
def F64.isFinite : F64 → Bool
  | .finite _ => true
  | _ => false

/-- IEEE-style addition on `F64` (exact on finite values): NaN absorbs,
opposite infinities give NaN, an infinity absorbs finite values. -/
def F64.add : F64 → F64 → F64
  | .nan, _ => .nan
  | _, .nan => .nan
  | .posInf, .negInf => .nan
  | .negInf, .posInf => .nan
  | .posInf, _ => .posInf
  | _, .posInf => .posInf
  | .negInf, _ => .negInf
  | _, .negInf => .negInf
  | .finite a, .finite b => .finite (a + b)

/-- Rust `Iterator::sum::<f64>()`: left fold of `+` starting from `0.0`. -/
def F64.listSum (l : List F64) : F64 := l.foldl F64.add (F64.finite 0)

/-- Drop the longest whitespace prefix of a character list
(Rust `str::trim_start`). -/
def trimL (l : List Char) : List Char := l.dropWhile Char.isWhitespace

/-- Drop the longest whitespace suffix of a character list
(Rust `str::trim_end`). -/
def trimR (l : List Char) : List Char :=
  (l.reverse.dropWhile Char.isWhitespace).reverse

/-- Rust `str::trim`: drop leading and trailing whitespace.  (Lean's
`Char.isWhitespace` stands in for Unicode `White_Space`.) -/
def rsTrim (s : String) : String := ⟨trimR (trimL s.data)⟩

/-- Rust `str::is_empty`. -/
def rsIsEmpty (s : String) : Bool := s.data.isEmpty

/-- Lowercase hex digit, as the uuid crate prints. -/
def isHexDigit (c : Char) : Bool :=
  ('0' ≤ c && c ≤ '9') || ('a' ≤ c && c ≤ 'f')

/-- The character admissible at position `i` of a canonical hyphenated
uuid string (8-4-4-4-12 hex groups). -/
def uuidCharOk (i : Nat) (c : Char) : Bool :=
  if i == 8 || i == 13 || i == 18 || i == 23 then c == '-' else isHexDigit c

/-- Positional scan of a uuid string's characters, accepting exactly 36
of them. -/
def uuidChars : Nat → List Char → Bool
  | i, [] => i == 36
  | i, c :: cs => uuidCharOk i c && uuidChars (i + 1) cs

/-- A parseable uuid string: the canonical hyphenated form, which is
what the uuid crate prints and serde serializes.  (Rust's parser also
accepts uppercase, braced, simple and urn spellings; those alternative
spellings of the same uuid are not modelled, so the model's load rejects
a few files the program would accept — it never accepts one the program
rejects.) -/
def validUuid (s : String) : Bool := uuidChars 0 s.data

/-- Model of `uuid::Uuid` by its canonical string form: exactly the
strings `Uuid::parse_str` accepts in canonical form, so that — as in
Rust, where the field is typed `Uuid` — every in-memory id is a genuine
uuid.  The code only compares ids for equality and serializes them as
strings. -/
abbrev Uuid := {s : String // validUuid s = true}

/-- Concrete uuids used by witnesses and counterexamples. -/
def uuidA : Uuid := ⟨"aaaaaaaa-aaaa-aaaa-aaaa-aaaaaaaaaaaa", by decide⟩

def uuidB : Uuid := ⟨"bbbbbbbb-bbbb-bbbb-bbbb-bbbbbbbbbbbb", by decide⟩

def uuidC : Uuid := ⟨"cccccccc-cccc-cccc-cccc-cccccccccccc", by decide⟩

/-- The `Transaction` struct: `id: Uuid, user: String, item: String,
amount: f64, timestamp: u64`. -/
structure Transaction where
  id : Uuid
  user : String
  item : String
  amount : F64
  timestamp : Nat
deriving DecidableEq

/-- The `CreateTransaction` request payload. -/
structure CreateTransaction where
  user : String
  item : String
  amount : F64
  timestamp : Option Nat
deriving DecidableEq, Repr

/-- The `UpdateTransaction` request payload: every field optional. -/
structure UpdateTransaction where
  user : Option String
  item : Option String
  amount : Option F64
  timestamp : Option Nat
deriving DecidableEq, Repr

/-- Responses of the `create_transaction` handler. -/
inductive CreateResponse where
  | created (t : Transaction)
  | badRequest (msg : String)
  | serverError
deriving DecidableEq

/-- Responses of the `update_transaction` handler.  `fatal` models the
`.unwrap()` on the result-retrieval step at line 366 receiving `None`. -/
inductive UpdateResponse where
  | ok (t : Transaction)
  | badRequest (msg : String)
  | notFound
  | serverError
  | fatal
deriving DecidableEq

/-- Responses of the `delete_transaction` handler. -/
inductive DeleteResponse where
  | noContent
  | notFound
  | serverError
deriving DecidableEq, Repr

/-- The `create_transaction` handler (main.rs lines 239-286).  `freshId`
is the value returned by `Uuid::new_v4()`, `now` the current clock
reading, `persistOk` whether `state.persist()` succeeds.  Returns the
HTTP response together with the in-memory collection afterwards. -/
def create_transaction (persistOk : Bool) (freshId : Uuid) (now : Nat)
    (payload : CreateTransaction) (c : List Transaction) :
    CreateResponse × List Transaction :=
  if rsIsEmpty (rsTrim payload.user) || rsIsEmpty (rsTrim payload.item) then
    (.badRequest "user and item must be non-empty strings", c)
  else if !payload.amount.isFinite then
    (.badRequest "amount must be a finite number", c)
  else
    let ts := payload.timestamp.getD now
    let tx : Transaction :=
      ⟨freshId, rsTrim payload.user, rsTrim payload.item, payload.amount, ts⟩
    let c2 := c ++ [tx]
    if persistOk then (.created tx, c2) else (.serverError, c2)

/-- The `list_transactions` handler: a snapshot clone of the collection. -/
def list_transactions (c : List Transaction) : List Transaction := c

/-- The `get_transaction` handler after uuid parsing: linear scan for the
first record with the given id (`none` models the NotFound response). -/
def get_transaction (id : Uuid) (c : List Transaction) : Option Transaction :=
  c.find? (fun t => t.id == id)

/-- Body of `update_transaction`'s `if let Some(user) = &payload.user`
block: validates and applies the supplied `user` field in place. -/
def applyUserField (p : UpdateTransaction) (tx : Transaction) :
    Transaction × Option String :=
  match p.user with
  | none => (tx, none)
  | some u =>
      if rsIsEmpty (rsTrim u) then (tx, some "user cannot be empty")
      else ({ tx with user := rsTrim u }, none)

/-- The `item` block of `update_transaction`. -/
def applyItemField (p : UpdateTransaction) (tx : Transaction) :
    Transaction × Option String :=
  match p.item with
  | none => (tx, none)
  | some i =>
      if rsIsEmpty (rsTrim i) then (tx, some "item cannot be empty")
      else ({ tx with item := rsTrim i }, none)

/-- The `amount` block of `update_transaction`. -/
def applyAmountField (p : UpdateTransaction) (tx : Transaction) :
    Transaction × Option String :=
  match p.amount with
  | none => (tx, none)
  | some a =>
      if !a.isFinite then (tx, some "amount must be finite")
      else ({ tx with amount := a }, none)

/-- The `timestamp` block of `update_transaction` (no validation). -/
def applyTimestampField (p : UpdateTransaction) (tx : Transaction) :
    Transaction :=
  match p.timestamp with
  | none => tx
  | some ts => { tx with timestamp := ts }

/-- The field-application sequence of `update_transaction` (lines
329-352): fields are processed in order user, item, amount, timestamp;
a validation failure early-returns, but assignments already made to the
record remain (the Rust code mutates `tx` in place inside the write
guard and `return`s mid-sequence). -/
def applyUpdateFields (p : UpdateTransaction) (tx : Transaction) :
    Transaction × Option String :=
  let r1 := applyUserField p tx
  match r1.2 with
  | some e => (r1.1, some e)
  | none =>
      let r2 := applyItemField p r1.1
      match r2.2 with
      | some e => (r2.1, some e)
      | none =>
          let r3 := applyAmountField p r2.1
          match r3.2 with
          | some e => (r3.1, some e)
          | none => (applyTimestampField p r3.1, none)

/-- The `iter_mut().find(|t| t.id == id)` scan followed by the in-place field
updates: `none` when no record matches; otherwise the collection with
the first matching record replaced, and the validation error if one of
the supplied fields was rejected. -/
def updateFirstMatch (id : Uuid) (p : UpdateTransaction) :
    List Transaction → Option (List Transaction × Option String)
  | [] => none
  | t :: ts =>
      if t.id == id then
        let r := applyUpdateFields p t
        some (r.1 :: ts, r.2)
      else
        match updateFirstMatch id p ts with
        | none => none
        | some (ts2, e) => some (t :: ts2, e)

/-- The `update_transaction` handler after uuid parsing (lines 312-368).
On a validation error the partially mutated collection is kept and
`persist` is not called; on success the handler persists and then
re-reads the collection to return the updated record, `.unwrap()`-ing
the lookup (the `fatal` response models that unwrap receiving `None`). -/
def update_transaction (persistOk : Bool) (id : Uuid)
    (p : UpdateTransaction) (c : List Transaction) :
    UpdateResponse × List Transaction :=
  match updateFirstMatch id p c with
  | none => (.notFound, c)
  | some (c2, some e) => (.badRequest e, c2)
  | some (c2, none) =>
      if persistOk then
        match c2.find? (fun t => t.id == id) with
        | some t => (.ok t, c2)
        | none => (.fatal, c2)
      else (.serverError, c2)

/-- The `delete_transaction` handler after uuid parsing (lines 370-396):
`retain(|t| t.id != id)`, NotFound exactly when the length is unchanged,
then persist. -/
def delete_transaction (persistOk : Bool) (id : Uuid)
    (c : List Transaction) : DeleteResponse × List Transaction :=
  let c2 := c.filter (fun t => t.id != id)
  if c2.length = c.length then (.notFound, c2)
  else if persistOk then (.noContent, c2) else (.serverError, c2)

/-- The JSON body of the `user_summary` response. -/
structure UserSummary where
  user : String
  count : Nat
  total_amount : F64
  transactions : List Transaction
deriving DecidableEq

/-- The `user_summary` handler (lines 398-415): filter by exact `user`
equality, sum the amounts, count the matches. -/
def user_summary (user : String) (c : List Transaction) : UserSummary :=
  let user_txs := c.filter (fun t => t.user == user)
  { user := user
    count := user_txs.length
    total_amount := F64.listSum (user_txs.map (·.amount))
    transactions := user_txs }

/-! ### Persistence layer

`persist` (lines 213-225) serializes the collection with
`serde_json::to_vec_pretty`, writes a temp file and renames it over the
target; `load` (lines 227-236) reads the file if it exists and parses it
with `serde_json::from_slice(..).unwrap_or_default()`.  We model the file
content at the JSON-document level (byte-level formatting and escaping
are not contractual). -/

/-- A JSON document.  Numbers are carried as exact rationals (JSON has no
NaN or infinity; serde_json serializes a non-finite `f64` as `null`). -/
inductive Json where
  | null
  | bool (b : Bool)
  | num (q : ℚ)
  | str (s : String)
  | arr (elems : List Json)
  | obj (fields : List (String × Json))

/-- serde_json's serialization of an `f64`: finite values as numbers,
NaN and the infinities as `null`. -/
def encodeF64 : F64 → Json
  | .finite q => .num q
  | _ => .null

/-- Serialization of one `Transaction` (derived `Serialize`): an object
with the five fields; the `Uuid` id serializes as its string form. -/
def encodeTx (t : Transaction) : Json :=
  .obj [("id", .str t.id.val), ("user", .str t.user), ("item", .str t.item),
        ("amount", encodeF64 t.amount), ("timestamp", .num (t.timestamp : ℚ))]

/-- Serialization of the whole collection: a JSON array. -/
def encodeCollection (c : List Transaction) : Json :=
  .arr (c.map encodeTx)

/-- Field lookup in a JSON object. -/
def jLookup (fields : List (String × Json)) (k : String) : Option Json :=
  (fields.find? (fun kv => kv.1 == k)).map (·.2)

/-- Deserializing a JSON value as a string. -/
def asStr : Option Json → Option String
  | some (.str s) => some s
  | _ => none

/-- Deserializing a JSON value as an `f64`: only numbers are accepted
(in particular `null` — the image of a non-finite float — is rejected). -/
def asNum : Option Json → Option ℚ
  | some (.num q) => some q
  | _ => none

/-- Deserializing a JSON value as a `u64`: a number that is a
non-negative integer. -/
def asNat (o : Option Json) : Option Nat :=
  match asNum o with
  | some q => if q.den = 1 ∧ 0 ≤ q.num then some q.num.toNat else none
  | none => none

/-- Derived `Deserialize` for `Transaction`: all five fields must be
present with the right types, and the `id` string must be a parseable
uuid (serde deserializes the field through `Uuid`, so a malformed id
fails the whole parse). -/
def decodeTx (j : Json) : Option Transaction :=
  match j with
  | .obj fs =>
      match asStr (jLookup fs "id"), asStr (jLookup fs "user"),
            asStr (jLookup fs "item"), asNum (jLookup fs "amount"),
            asNat (jLookup fs "timestamp") with
      | some id, some user, some item, some q, some ts =>
          if h : validUuid id = true then
            some ⟨⟨id, h⟩, user, item, .finite q, ts⟩
          else none
      | _, _, _, _, _ => none
  | _ => none

/-- Deserializing a list of transactions element by element; any failure
fails the whole parse. -/
def decodeTxs : List Json → Option (List Transaction)
  | [] => some []
  | j :: js =>
      match decodeTx j, decodeTxs js with
      | some t, some ts => some (t :: ts)
      | _, _ => none

/-- Rust `serde_json::from_slice::<Vec<Transaction>>` on a parsed document:
the document must be an array of valid transaction objects. -/
def decodeCollection (j : Json) : Option (List Transaction) :=
  match j with
  | .arr js => decodeTxs js
  | _ => none

/-- The state of the storage file as `load` can observe it. -/
inductive FileState where
  | absent
  | ioError
  | corrupt
  | content (j : Json)

/-- Rust `AppState::load` (lines 227-236): absent file gives an empty vector;
a read error propagates as `Err`; bytes that do not parse as a JSON
array of transactions give the `unwrap_or_default` empty vector. -/
def loadResult : FileState → Except Unit (List Transaction)
  | .absent => .ok []
  | .ioError => .error ()
  | .corrupt => .ok []
  | .content j => .ok ((decodeCollection j).getD [])

/-- The startup collection computed in `main` (line 420):
`AppState::load(STORAGE_FILE).await.unwrap_or_default()`. -/
def startupCollection (fs : FileState) : List Transaction :=
  match loadResult fs with
  | .ok c => c
  | .error _ => []

/-- The file state after a successful `persist` of collection `c`: the
temp file has been renamed over the target, whose content is now the
serialized collection. -/
def persistFile (c : List Transaction) : FileState :=
  .content (encodeCollection c)

/-! ### Reachable collection states -/

/-- One mutating operation together with its environment (the generated
uuid, the clock, and whether `persist` succeeds). -/
inductive Op where
  | create (persistOk : Bool) (freshId : Uuid) (now : Nat)
      (payload : CreateTransaction)
  | update (persistOk : Bool) (id : Uuid) (p : UpdateTransaction)
  | delete (persistOk : Bool) (id : Uuid)

/-- The in-memory collection after running one operation. -/
def applyOp (c : List Transaction) : Op → List Transaction
  | .create persistOk freshId now payload =>
      (create_transaction persistOk freshId now payload c).2
  | .update persistOk id p => (update_transaction persistOk id p c).2
  | .delete persistOk id => (delete_transaction persistOk id c).2

/-- Collection states reachable by the program: some startup load
followed by any sequence of mutating operations. -/
inductive Reachable : List Transaction → Prop
  | startup (fs : FileState) : Reachable (startupCollection fs)
  | step {c : List Transaction} (op : Op) :
      Reachable c → Reachable (applyOp c op)

/-- The per-record part of the C2 invariant: user and item non-empty
after trimming, finite amount. -/
def RecordOk (t : Transaction) : Prop :=
  rsIsEmpty (rsTrim t.user) = false ∧ rsIsEmpty (rsTrim t.item) = false ∧
  t.amount.isFinite = true

/-- The C2 collection invariant: pairwise-distinct ids and every record
well-formed. -/
def Invariant (c : List Transaction) : Prop :=
  (c.map (·.id)).Nodup ∧ ∀ t ∈ c, RecordOk t

/-- Reachability under the two idealizations the spec's invariant needs:
the startup collection already satisfies the invariant, and every uuid
generated for a create is fresh (absent from the current collection). -/
inductive ReachableFresh : List Transaction → Prop
  | startup (fs : FileState) : Invariant (startupCollection fs) →
      ReachableFresh (startupCollection fs)
  | createStep {c : List Transaction} (persistOk : Bool) (freshId : Uuid)
      (now : Nat) (payload : CreateTransaction) : ReachableFresh c →
      freshId ∉ c.map (·.id) →
      ReachableFresh (applyOp c (.create persistOk freshId now payload))
  | updateStep {c : List Transaction} (persistOk : Bool) (id : Uuid)
      (p : UpdateTransaction) : ReachableFresh c →
      ReachableFresh (applyOp c (.update persistOk id p))
  | deleteStep {c : List Transaction} (persistOk : Bool) (id : Uuid) :
      ReachableFresh c →
      ReachableFresh (applyOp c (.delete persistOk id))

/-! ### Trimming lemmas -/

theorem dropWhile_idem {α : Type} (p : α → Bool) (l : List α) :
    (l.dropWhile p).dropWhile p = l.dropWhile p := by
  induction l with
  | nil => rfl
  | cons a t ih =>
      by_cases h : p a = true
      · simp [List.dropWhile_cons, h, ih]
      · simp at h
        simp [List.dropWhile_cons, h]

theorem head?_dropWhile {α : Type} (p : α → Bool) (l : List α) :
    ∀ a, (l.dropWhile p).head? = some a → p a = false := by
  induction l with
  | nil => intro a h; simp at h
  | cons b t ih =>
      intro a h
      by_cases hb : p b = true
      · exact ih a (by simpa [List.dropWhile_cons, hb] using h)
      · simp at hb
        simp [List.dropWhile_cons, hb] at h
        rw [← h]
        exact hb

theorem dropWhile_eq_self {α : Type} (p : α → Bool) (l : List α)
    (h : ∀ a, l.head? = some a → p a = false) : l.dropWhile p = l := by
  cases l with
  | nil => rfl
  | cons a t => simp [List.dropWhile_cons, h a rfl]

theorem getLast?_dropWhile {α : Type} (p : α → Bool) (l : List α)
    (h : l.dropWhile p ≠ []) : (l.dropWhile p).getLast? = l.getLast? := by
  induction l with
  | nil => simp at h
  | cons a t ih =>
      by_cases ha : p a = true
      · have hne : t.dropWhile p ≠ [] := by
          simpa [List.dropWhile_cons, ha] using h
        have ht : t ≠ [] := by
          intro h0
          rw [h0] at hne
          simp at hne
        rw [List.dropWhile_cons, if_pos ha, ih hne]
        cases t with
        | nil => exact absurd rfl ht
        | cons b t2 => rw [List.getLast?_cons_cons]
      · simp at ha
        simp [List.dropWhile_cons, ha]

theorem trimR_idem (l : List Char) : trimR (trimR l) = trimR l := by
  unfold trimR
  rw [List.reverse_reverse, dropWhile_idem]

theorem trimL_trimR (l : List Char) :
    trimL (trimR (trimL l)) = trimR (trimL l) := by
  apply dropWhile_eq_self
  intro a ha
  unfold trimR at ha
  rw [List.head?_reverse] at ha
  have hne : (trimL l).reverse.dropWhile Char.isWhitespace ≠ [] := by
    intro h0
    rw [h0] at ha
    simp at ha
  rw [getLast?_dropWhile _ _ hne, List.getLast?_reverse] at ha
  exact head?_dropWhile _ l a ha

theorem rsTrim_idem (s : String) : rsTrim (rsTrim s) = rsTrim s := by
  unfold rsTrim
  congr 1
  show trimR (trimL (trimR (trimL s.data))) = trimR (trimL s.data)
  rw [trimL_trimR]
  exact trimR_idem _

/-! ### Update field lemmas -/

/-- The user block either leaves the record alone or stores the trimmed,
validated user. -/
theorem applyUserField_frame (p : UpdateTransaction) (tx : Transaction) :
    (applyUserField p tx).1 = tx ∨
    ∃ u, p.user = some u ∧ rsIsEmpty (rsTrim u) = false ∧
      (applyUserField p tx).1 = { tx with user := rsTrim u } := by
  unfold applyUserField
  rcases hu : p.user with _ | u
  · exact Or.inl rfl
  · by_cases h : rsIsEmpty (rsTrim u) = true
    · simp [h]
    · simp at h
      simp [h]

/-- The item block either leaves the record alone or stores the trimmed,
validated item. -/
theorem applyItemField_frame (p : UpdateTransaction) (tx : Transaction) :
    (applyItemField p tx).1 = tx ∨
    ∃ i, p.item = some i ∧ rsIsEmpty (rsTrim i) = false ∧
      (applyItemField p tx).1 = { tx with item := rsTrim i } := by
  unfold applyItemField
  rcases hi : p.item with _ | i
  · exact Or.inl rfl
  · by_cases h : rsIsEmpty (rsTrim i) = true
    · simp [h]
    · simp at h
      simp [h]

/-- The amount block either leaves the record alone or stores the
validated finite amount. -/
theorem applyAmountField_frame (p : UpdateTransaction) (tx : Transaction) :
    (applyAmountField p tx).1 = tx ∨
    ∃ a, p.amount = some a ∧ a.isFinite = true ∧
      (applyAmountField p tx).1 = { tx with amount := a } := by
  unfold applyAmountField
  rcases ha : p.amount with _ | a
  · exact Or.inl rfl
  · by_cases h : a.isFinite = true
    · simp [h]
    · simp at h
      simp [h]

/-- The timestamp block either leaves the record alone or stores the
supplied timestamp. -/
theorem applyTimestampField_frame (p : UpdateTransaction) (tx : Transaction) :
    applyTimestampField p tx = tx ∨
    ∃ ts, p.timestamp = some ts ∧
      applyTimestampField p tx = { tx with timestamp := ts } := by
  unfold applyTimestampField
  rcases hts : p.timestamp with _ | ts
  · exact Or.inl rfl
  · exact Or.inr ⟨ts, rfl, rfl⟩

theorem applyUserField_pres (p : UpdateTransaction) (tx : Transaction)
    (h : RecordOk tx) :
    (applyUserField p tx).1.id = tx.id ∧ (applyUserField p tx).1.item = tx.item ∧
    (applyUserField p tx).1.amount = tx.amount ∧
    (applyUserField p tx).1.timestamp = tx.timestamp ∧
    RecordOk (applyUserField p tx).1 := by
  rcases applyUserField_frame p tx with h1 | ⟨u, _, hv, h1⟩
  · rw [h1]
    exact ⟨rfl, rfl, rfl, rfl, h⟩
  · rw [h1]
    refine ⟨rfl, rfl, rfl, rfl, ?_, h.2.1, h.2.2⟩
    show rsIsEmpty (rsTrim (rsTrim u)) = false
    rw [rsTrim_idem]
    exact hv

theorem applyItemField_pres (p : UpdateTransaction) (tx : Transaction)
    (h : RecordOk tx) :
    (applyItemField p tx).1.id = tx.id ∧ (applyItemField p tx).1.user = tx.user ∧
    (applyItemField p tx).1.amount = tx.amount ∧
    (applyItemField p tx).1.timestamp = tx.timestamp ∧
    RecordOk (applyItemField p tx).1 := by
  rcases applyItemField_frame p tx with h1 | ⟨i, _, hv, h1⟩
  · rw [h1]
    exact ⟨rfl, rfl, rfl, rfl, h⟩
  · rw [h1]
    refine ⟨rfl, rfl, rfl, rfl, h.1, ?_, h.2.2⟩
    show rsIsEmpty (rsTrim (rsTrim i)) = false
    rw [rsTrim_idem]
    exact hv

theorem applyAmountField_pres (p : UpdateTransaction) (tx : Transaction)
    (h : RecordOk tx) :
    (applyAmountField p tx).1.id = tx.id ∧ (applyAmountField p tx).1.user = tx.user ∧
    (applyAmountField p tx).1.item = tx.item ∧
    (applyAmountField p tx).1.timestamp = tx.timestamp ∧
    RecordOk (applyAmountField p tx).1 := by
  rcases applyAmountField_frame p tx with h1 | ⟨a, _, hv, h1⟩
  · rw [h1]
    exact ⟨rfl, rfl, rfl, rfl, h⟩
  · rw [h1]
    exact ⟨rfl, rfl, rfl, rfl, h.1, h.2.1, hv⟩

theorem applyTimestampField_pres (p : UpdateTransaction) (tx : Transaction)
    (h : RecordOk tx) :
    (applyTimestampField p tx).id = tx.id ∧
    (applyTimestampField p tx).user = tx.user ∧
    (applyTimestampField p tx).item = tx.item ∧
    RecordOk (applyTimestampField p tx) := by
  rcases applyTimestampField_frame p tx with h1 | ⟨ts, _, h1⟩
  · rw [h1]
    exact ⟨rfl, rfl, rfl, h⟩
  · rw [h1]
    exact ⟨rfl, rfl, rfl, h.1, h.2.1, h.2.2⟩

/-- Whatever happens inside the field-update sequence — full success or
an early validation return — the record keeps its id and stays
well-formed. -/
theorem applyUpdateFields_pres (p : UpdateTransaction) (tx : Transaction)
    (h : RecordOk tx) :
    (applyUpdateFields p tx).1.id = tx.id ∧
    RecordOk (applyUpdateFields p tx).1 := by
  unfold applyUpdateFields
  have h1 := applyUserField_pres p tx h
  rcases e1 : applyUserField p tx with ⟨tx1, o1⟩
  rw [e1] at h1
  rcases o1 with _ | m1
  · have h2 := applyItemField_pres p tx1 h1.2.2.2.2
    rcases e2 : applyItemField p tx1 with ⟨tx2, o2⟩
    rw [e2] at h2
    rcases o2 with _ | m2
    · have h3 := applyAmountField_pres p tx2 h2.2.2.2.2
      rcases e3 : applyAmountField p tx2 with ⟨tx3, o3⟩
      rw [e3] at h3
      rcases o3 with _ | m3
      · have h4 := applyTimestampField_pres p tx3 h3.2.2.2.2
        simp only [e1, e2, e3]
        exact ⟨by rw [h4.1, h3.1, h2.1, h1.1], h4.2.2.2⟩
      · simp only [e1, e2, e3]
        exact ⟨by rw [h3.1, h2.1, h1.1], h3.2.2.2.2⟩
    · simp only [e1, e2]
      exact ⟨by rw [h2.1, h1.1], h2.2.2.2.2⟩
  · simp only [e1]
    exact ⟨h1.1, h1.2.2.2.2⟩

/-! ### updateFirstMatch lemmas -/

/-- The field-update sequence never changes the record's id (the `id`
field is not assignable through `UpdateTransaction`). -/
theorem applyUpdateFields_id (p : UpdateTransaction) (tx : Transaction) :
    (applyUpdateFields p tx).1.id = tx.id := by
  unfold applyUpdateFields
  have h1 : (applyUserField p tx).1.id = tx.id := by
    rcases applyUserField_frame p tx with h | ⟨u, _, _, h⟩ <;> rw [h]
  rcases e1 : applyUserField p tx with ⟨tx1, o1⟩
  rw [e1] at h1
  have h2 : (applyItemField p tx1).1.id = tx1.id := by
    rcases applyItemField_frame p tx1 with h | ⟨i, _, _, h⟩ <;> rw [h]
  rcases e2 : applyItemField p tx1 with ⟨tx2, o2⟩
  rw [e2] at h2
  have h3 : (applyAmountField p tx2).1.id = tx2.id := by
    rcases applyAmountField_frame p tx2 with h | ⟨a, _, _, h⟩ <;> rw [h]
  rcases e3 : applyAmountField p tx2 with ⟨tx3, o3⟩
  rw [e3] at h3
  have h4 : (applyTimestampField p tx3).id = tx3.id := by
    rcases applyTimestampField_frame p tx3 with h | ⟨ts, _, h⟩ <;> rw [h]
  rcases o1 with _ | m1
  · rcases o2 with _ | m2
    · rcases o3 with _ | m3
      · simp only [e1, e2, e3]
        rw [h4, h3, h2, h1]
      · simp only [e1, e2, e3]
        rw [h3, h2, h1]
    · simp only [e1, e2]
      rw [h2, h1]
  · simp only [e1]
    exact h1

/-- When `update` found a record: the id sequence of the collection is
unchanged, well-formedness is preserved, and some record in the new
collection carries the searched id. -/
theorem updateFirstMatch_some (id : Uuid) (p : UpdateTransaction) :
    ∀ (c c2 : List Transaction) (e : Option String),
      updateFirstMatch id p c = some (c2, e) →
      c2.map (·.id) = c.map (·.id) ∧
      ((∀ s ∈ c, RecordOk s) → ∀ t2 ∈ c2, RecordOk t2) ∧
      ∃ t2 ∈ c2, (t2.id == id) = true := by
  intro c
  induction c with
  | nil =>
      intro c2 e h
      simp [updateFirstMatch] at h
  | cons a t ih =>
      intro c2 e h
      unfold updateFirstMatch at h
      by_cases ha : (a.id == id) = true
      · rw [if_pos ha] at h
        have h' := Option.some.inj h
        have hc2 : c2 = (applyUpdateFields p a).1 :: t :=
          (congrArg Prod.fst h').symm
        subst hc2
        refine ⟨?_, ?_, ?_⟩
        · simp only [List.map_cons, applyUpdateFields_id]
        · intro hok t2 ht2
          rcases List.mem_cons.mp ht2 with h2 | h2
          · rw [h2]
            exact (applyUpdateFields_pres p a (hok a (by simp))).2
          · exact hok t2 (List.mem_cons_of_mem a h2)
        · exact ⟨(applyUpdateFields p a).1, by simp,
            by rw [applyUpdateFields_id]; exact ha⟩
      · rw [if_neg ha] at h
        rcases e2 : updateFirstMatch id p t with _ | ⟨ts2, e'⟩
        · rw [e2] at h
          simp at h
        · rw [e2] at h
          have h' := Option.some.inj h
          have hc2 : c2 = a :: ts2 := (congrArg Prod.fst h').symm
          subst hc2
          obtain ⟨hmap, hok, t2, ht2, hbeq⟩ := ih ts2 e' e2
          refine ⟨?_, ?_, ?_⟩
          · simp only [List.map_cons, hmap]
          · intro hall t3 ht3
            rcases List.mem_cons.mp ht3 with h3 | h3
            · rw [h3]
              exact hall a (by simp)
            · exact hok (fun s hs => hall s (List.mem_cons_of_mem a hs)) t3 h3
          · exact ⟨t2, List.mem_cons_of_mem a ht2, hbeq⟩

/-- When no record matches, `update` leaves the collection untouched and
reports NotFound. -/
theorem updateFirstMatch_none (id : Uuid) (p : UpdateTransaction) :
    ∀ c : List Transaction, (∀ t ∈ c, (t.id == id) = false) →
      updateFirstMatch id p c = none := by
  intro c
  induction c with
  | nil => intro _; rfl
  | cons a t ih =>
      intro h
      unfold updateFirstMatch
      rw [if_neg (by rw [h a (by simp)]; exact Bool.false_ne_true),
        ih (fun u hu => h u (List.mem_cons_of_mem a hu))]

/-- Unfolding equation of `updateFirstMatch` on a non-empty list. -/
theorem updateFirstMatch_cons (id : Uuid) (p : UpdateTransaction)
    (a : Transaction) (ts : List Transaction) :
    updateFirstMatch id p (a :: ts) =
      if (a.id == id) = true then
        some ((applyUpdateFields p a).1 :: ts, (applyUpdateFields p a).2)
      else
        match updateFirstMatch id p ts with
        | none => none
        | some (ts2, e) => some (a :: ts2, e) := rfl

/-- Positional characterization: updating at the first matching record
rewrites exactly that record. -/
theorem updateFirstMatch_decomp (id : Uuid) (p : UpdateTransaction)
    (pre post : List Transaction) (tx : Transaction)
    (hpre : ∀ u ∈ pre, (u.id == id) = false) (htx : (tx.id == id) = true) :
    updateFirstMatch id p (pre ++ tx :: post) =
      some (pre ++ (applyUpdateFields p tx).1 :: post,
        (applyUpdateFields p tx).2) := by
  induction pre with
  | nil =>
      rw [List.nil_append, updateFirstMatch_cons, if_pos htx, List.nil_append]
  | cons a t ih =>
      have ha := hpre a (by simp)
      rw [List.cons_append, updateFirstMatch_cons,
        if_neg (by rw [ha]; exact Bool.false_ne_true),
        ih (fun u hu => hpre u (List.mem_cons_of_mem a hu))]
      rfl

/-- The find? scan at the first matching position. -/
theorem find?_first (id : Uuid) (pre post : List Transaction)
    (tx : Transaction) (hpre : ∀ u ∈ pre, (u.id == id) = false)
    (htx : (tx.id == id) = true) :
    (pre ++ tx :: post).find? (fun t => t.id == id) = some tx := by
  induction pre with
  | nil =>
      rw [List.nil_append]
      exact List.find?_cons_of_pos _ htx
  | cons a t ih =>
      rw [List.cons_append,
        List.find?_cons_of_neg _ (by rw [hpre a (by simp)]; exact Bool.false_ne_true)]
      exact ih (fun u hu => hpre u (List.mem_cons_of_mem a hu))

/-- When every supplied field is valid, the field-update sequence
succeeds and produces exactly the record with the supplied fields
replaced (user and item trimmed) and the others untouched. -/
theorem applyUpdateFields_valid (p : UpdateTransaction) (tx : Transaction)
    (hu : ∀ u, p.user = some u → rsIsEmpty (rsTrim u) = false)
    (hi : ∀ i, p.item = some i → rsIsEmpty (rsTrim i) = false)
    (ha : ∀ a, p.amount = some a → a.isFinite = true) :
    applyUpdateFields p tx =
      (⟨tx.id, (p.user.map rsTrim).getD tx.user,
        (p.item.map rsTrim).getD tx.item, p.amount.getD tx.amount,
        p.timestamp.getD tx.timestamp⟩, none) := by
  obtain ⟨pu, pi2, pa, pt⟩ := p
  obtain ⟨tid, tuser, titem, tam, tts⟩ := tx
  unfold applyUpdateFields applyUserField applyItemField applyAmountField
    applyTimestampField
  rcases pu with _ | u <;> rcases pi2 with _ | i <;>
    rcases pa with _ | a <;> rcases pt with _ | ts <;>
    simp_all

/-! ### JSON round-trip lemmas -/

theorem decodeTx_encodeTx (t : Transaction)
    (h : t.amount.isFinite = true) : decodeTx (encodeTx t) = some t := by
  obtain ⟨⟨tid, tidh⟩, tuser, titem, tam, tts⟩ := t
  rcases tam with q | _ | _ | _ <;> simp [F64.isFinite] at h
  show decodeTx (Json.obj [("id", .str tid), ("user", .str tuser),
    ("item", .str titem), ("amount", .num q), ("timestamp", .num (tts : ℚ))]) =
    some ⟨⟨tid, tidh⟩, tuser, titem, .finite q, tts⟩
  simp [decodeTx, jLookup, asStr, asNum, asNat, List.find?, Rat.den_natCast,
    Rat.num_natCast, Int.toNat_natCast, tidh]

theorem decodeTxs_map (c : List Transaction)
    (h : ∀ t ∈ c, t.amount.isFinite = true) :
    decodeTxs (c.map encodeTx) = some c := by
  induction c with
  | nil => rfl
  | cons a t ih =>
      rw [List.map_cons]
      show (match decodeTx (encodeTx a), decodeTxs (t.map encodeTx) with
        | some t2, some ts => some (t2 :: ts)
        | _, _ => none) = some (a :: t)
      rw [decodeTx_encodeTx a (h a (by simp)),
        ih (fun s hs => h s (List.mem_cons_of_mem a hs))]

/-- Round trip of serialization at the document level, for collections
whose amounts are all finite (which every reachable collection's are). -/
theorem decodeCollection_encodeCollection (c : List Transaction)
    (h : ∀ t ∈ c, t.amount.isFinite = true) :
    decodeCollection (encodeCollection c) = some c := by
  show decodeTxs (c.map encodeTx) = some c
  exact decodeTxs_map c h

/-! ### Equation lemmas for the handlers -/

theorem delete_transaction_def (persistOk : Bool) (id : Uuid)
    (c : List Transaction) :
    delete_transaction persistOk id c =
      if (c.filter (fun t => t.id != id)).length = c.length then
        (.notFound, c.filter (fun t => t.id != id))
      else if persistOk = true then
        (.noContent, c.filter (fun t => t.id != id))
      else (.serverError, c.filter (fun t => t.id != id)) := rfl

/-- Retained records plus matching records account for the whole
collection. -/
theorem filter_ne_length (id : Uuid) (c : List Transaction) :
    (c.filter (fun t => t.id != id)).length +
      c.countP (fun t => t.id == id) = c.length := by
  rw [← List.countP_eq_length_filter]
  have hlen := List.length_eq_countP_add_countP (fun t => t.id == id) c
  have hc : c.countP (fun a => decide ¬((fun t => t.id == id) a = true)) =
      c.countP (fun t => t.id != id) :=
    List.countP_congr (fun a _ => by
      cases h : a.id == id <;> simp [h, bne])
  rw [hc] at hlen
  omega

theorem delete_notFound_iff (persistOk : Bool) (id : Uuid)
    (d : List Transaction) :
    (delete_transaction persistOk id d).1 = .notFound ↔
      ∀ t ∈ d, (t.id == id) = false := by
  rw [delete_transaction_def]
  by_cases h : (d.filter (fun t => t.id != id)).length = d.length
  · rw [if_pos h]
    have hfe : d.filter (fun t => t.id != id) = d :=
      (List.filter_sublist d).eq_of_length h
    have hall := List.filter_eq_self.mp hfe
    constructor
    · intro _ t ht
      have h2 := hall t ht
      cases hb : (t.id == id)
      · rfl
      · rw [show (t.id != id) = !(t.id == id) from rfl, hb] at h2
        exact absurd h2 (by simp)
    · intro _
      rfl
  · rw [if_neg h]
    have hne : ¬ (∀ t ∈ d, (t.id == id) = false) := by
      intro hall
      apply h
      rw [List.filter_eq_self.mpr
        (fun t ht => by
          rw [show (t.id != id) = !(t.id == id) from rfl, hall t ht]
          rfl)]
    by_cases hp : persistOk = true
    · rw [if_pos hp]
      exact ⟨fun h2 => absurd h2 (by simp), fun h2 => absurd h2 hne⟩
    · rw [if_neg hp]
      exact ⟨fun h2 => absurd h2 (by simp), fun h2 => absurd h2 hne⟩

/-! ### Claim theorems -/

/-- C1: Round-trip persistence: persisting a collection and loading from
the same path yields the same sequence of records (same ids, fields,
order).  The finiteness hypothesis restates the data model's "amount is
a finite real" (a non-finite amount cannot occur in a reachable
collection, and JSON itself has no representation for it). -/
theorem C1_persist_load_roundtrip (c : List Transaction)
    (h : ∀ t ∈ c, t.amount.isFinite = true) :
    loadResult (persistFile c) = .ok c ∧
    startupCollection (persistFile c) = c := by
  have hd := decodeCollection_encodeCollection c h
  constructor
  · show Except.ok ((decodeCollection (encodeCollection c)).getD []) =
      Except.ok c
    rw [hd]
    rfl
  · show (decodeCollection (encodeCollection c)).getD [] = c
    rw [hd]
    rfl

/-- Witness for C1 at a concrete two-record collection. -/
theorem C1_witness :
    loadResult (persistFile
      [⟨uuidA, "Alice", "Book", .finite 9, 5⟩,
       ⟨uuidB, "Bob", "Pen", .finite (-2), 7⟩]) =
      .ok [⟨uuidA, "Alice", "Book", .finite 9, 5⟩,
           ⟨uuidB, "Bob", "Pen", .finite (-2), 7⟩] ∧
    startupCollection (persistFile
      [⟨uuidA, "Alice", "Book", .finite 9, 5⟩,
       ⟨uuidB, "Bob", "Pen", .finite (-2), 7⟩]) =
      [⟨uuidA, "Alice", "Book", .finite 9, 5⟩,
       ⟨uuidB, "Bob", "Pen", .finite (-2), 7⟩] :=
  C1_persist_load_roundtrip _ (by decide)

/-- C8: Load leniency: an absent file, an unreadable file, and a present
but unparseable file all yield the empty collection; startup never
fails (the `load` error is absorbed by `unwrap_or_default` in `main`). -/
theorem C8_load_leniency :
    startupCollection .absent = [] ∧ startupCollection .corrupt = [] ∧
    startupCollection .ioError = [] ∧
    (∀ j, decodeCollection j = none → startupCollection (.content j) = []) := by
  refine ⟨rfl, rfl, rfl, fun j hj => ?_⟩
  show (decodeCollection j).getD [] = []
  rw [hj]
  rfl

/-- Witness for C8 at a concrete non-array document. -/
theorem C8_witness : startupCollection (.content .null) = [] :=
  C8_load_leniency.2.2.2 .null rfl

/-- C3: Create validation and trimming: whitespace-only user or item is
rejected with the collection unchanged; a non-finite amount is rejected
with the collection unchanged; valid input appends exactly one record
carrying the trimmed user and item. -/
theorem C3_create_validation (persistOk : Bool) (freshId : Uuid) (now : Nat)
    (payload : CreateTransaction) (c : List Transaction) :
    ((rsIsEmpty (rsTrim payload.user) = true ∨
        rsIsEmpty (rsTrim payload.item) = true) →
      create_transaction persistOk freshId now payload c =
        (.badRequest "user and item must be non-empty strings", c)) ∧
    (rsIsEmpty (rsTrim payload.user) = false →
      rsIsEmpty (rsTrim payload.item) = false →
      payload.amount.isFinite = false →
      create_transaction persistOk freshId now payload c =
        (.badRequest "amount must be a finite number", c)) ∧
    (rsIsEmpty (rsTrim payload.user) = false →
      rsIsEmpty (rsTrim payload.item) = false →
      payload.amount.isFinite = true → persistOk = true →
      create_transaction persistOk freshId now payload c =
        (.created ⟨freshId, rsTrim payload.user, rsTrim payload.item,
            payload.amount, payload.timestamp.getD now⟩,
          c ++ [⟨freshId, rsTrim payload.user, rsTrim payload.item,
            payload.amount, payload.timestamp.getD now⟩])) := by
  refine ⟨?_, ?_, ?_⟩
  · intro h
    rcases h with h | h <;> simp [create_transaction, h]
  · intro hu hi ha
    simp [create_transaction, hu, hi, ha]
  · intro hu hi ha hp
    simp [create_transaction, hu, hi, ha, hp]

/-- Witness for C3: the spec's own example inputs.  The whitespace-only
user is rejected, the NaN amount is rejected, and the valid padded input
is stored trimmed. -/
theorem C3_witness :
    create_transaction true uuidC 42 ⟨"  ", "x", F64.finite 1, none⟩ [] =
      (.badRequest "user and item must be non-empty strings", []) ∧
    create_transaction true uuidC 42 ⟨"a", "b", F64.nan, none⟩ [] =
      (.badRequest "amount must be a finite number", []) ∧
    create_transaction true uuidC 42
      ⟨" Alice ", " Book ", F64.finite 9, none⟩ [] =
      (.created ⟨uuidC, "Alice", "Book", F64.finite 9, 42⟩,
        [⟨uuidC, "Alice", "Book", F64.finite 9, 42⟩]) := by
  refine ⟨?_, ?_, ?_⟩
  · exact (C3_create_validation true uuidC 42
      ⟨"  ", "x", F64.finite 1, none⟩ []).1 (Or.inl (by decide))
  · exact (C3_create_validation true uuidC 42
      ⟨"a", "b", F64.nan, none⟩ []).2.1 (by decide) (by decide) rfl
  · have h := (C3_create_validation true uuidC 42
      ⟨" Alice ", " Book ", F64.finite 9, none⟩ []).2.2
      (by decide) (by decide) (by decide) rfl
    rw [h]
    decide

/-- C5: Delete semantics: when exactly one record carries the id and
persistence succeeds, delete succeeds and shrinks the collection by one;
a second delete of the same id is NotFound and changes nothing; and in
general delete reports NotFound exactly when no record matches (which
the code detects solely by the length being unchanged). -/
theorem C5_delete_idempotent_absence (persistOk : Bool) (id : Uuid)
    (c : List Transaction)
    (hone : c.countP (fun t => t.id == id) = 1) (hp : persistOk = true) :
    (delete_transaction persistOk id c).1 = .noContent ∧
    (delete_transaction persistOk id c).2.length + 1 = c.length ∧
    (delete_transaction persistOk id
      (delete_transaction persistOk id c).2).1 = .notFound ∧
    (delete_transaction persistOk id
      (delete_transaction persistOk id c).2).2 =
      (delete_transaction persistOk id c).2 ∧
    (∀ d : List Transaction, ((delete_transaction persistOk id d).1 = .notFound ↔
      ∀ t ∈ d, (t.id == id) = false)) := by
  subst hp
  have hlen := filter_ne_length id c
  rw [hone] at hlen
  have hne : (c.filter (fun t => t.id != id)).length ≠ c.length := by omega
  have hstate : (delete_transaction true id c).2 =
      c.filter (fun t => t.id != id) := by
    rw [delete_transaction_def, if_neg hne, if_pos rfl]
  have hself : (c.filter (fun t => t.id != id)).filter
      (fun t => t.id != id) = c.filter (fun t => t.id != id) :=
    List.filter_eq_self.mpr (fun t ht => (List.mem_filter.mp ht).2)
  refine ⟨?_, ?_, ?_, ?_, fun d => delete_notFound_iff true id d⟩
  · rw [delete_transaction_def, if_neg hne, if_pos rfl]
  · rw [hstate, ← List.countP_eq_length_filter] at *
    omega
  · rw [hstate, delete_transaction_def, if_pos (by rw [hself])]
  · rw [hstate, delete_transaction_def, if_pos (by rw [hself]), hself]

/-- Witness for C5 at a concrete two-record collection. -/
theorem C5_witness :
    (delete_transaction true uuidA
      [⟨uuidA, "Alice", "Book", .finite 9, 5⟩,
       ⟨uuidB, "Bob", "Pen", .finite 2, 7⟩]).1 = .noContent ∧
    (delete_transaction true uuidA
      [⟨uuidA, "Alice", "Book", .finite 9, 5⟩,
       ⟨uuidB, "Bob", "Pen", .finite 2, 7⟩]).2.length + 1 = 2 ∧
    (delete_transaction true uuidA
      (delete_transaction true uuidA
        [⟨uuidA, "Alice", "Book", .finite 9, 5⟩,
         ⟨uuidB, "Bob", "Pen", .finite 2, 7⟩]).2).1 = .notFound ∧
    (delete_transaction true uuidA
      (delete_transaction true uuidA
        [⟨uuidA, "Alice", "Book", .finite 9, 5⟩,
         ⟨uuidB, "Bob", "Pen", .finite 2, 7⟩]).2).2 =
      (delete_transaction true uuidA
        [⟨uuidA, "Alice", "Book", .finite 9, 5⟩,
         ⟨uuidB, "Bob", "Pen", .finite 2, 7⟩]).2 ∧
    (∀ d : List Transaction, ((delete_transaction true uuidA d).1 = .notFound ↔
      ∀ t ∈ d, (t.id == uuidA) = false)) :=
  C5_delete_idempotent_absence true uuidA
    [⟨uuidA, "Alice", "Book", .finite 9, 5⟩,
     ⟨uuidB, "Bob", "Pen", .finite 2, 7⟩] (by decide) rfl

/-- C6: Summary correctness: `user_summary` selects exactly the records
whose user equals the query by exact string equality, its total is the
sum of their amounts, its count their number, and with no match the
total is 0 and the record list empty. -/
theorem C6_summary_correct (u : String) (c : List Transaction) :
    (user_summary u c).transactions = c.filter (fun t => decide (t.user = u)) ∧
    (user_summary u c).total_amount =
      F64.listSum ((c.filter (fun t => decide (t.user = u))).map (·.amount)) ∧
    (user_summary u c).count = (c.filter (fun t => decide (t.user = u))).length ∧
    (user_summary u c).user = u ∧
    ((∀ t ∈ c, t.user ≠ u) →
      (user_summary u c).total_amount = .finite 0 ∧
      (user_summary u c).transactions = []) := by
  have hfe : c.filter (fun t => t.user == u) =
      c.filter (fun t => decide (t.user = u)) :=
    List.filter_congr (fun t _ => by cases h : decide (t.user = u) <;> simp_all)
  refine ⟨?_, ?_, ?_, rfl, ?_⟩
  · show c.filter (fun t => t.user == u) = _
    rw [hfe]
  · show F64.listSum ((c.filter (fun t => t.user == u)).map (·.amount)) = _
    rw [hfe]
  · show (c.filter (fun t => t.user == u)).length = _
    rw [hfe]
  · intro hnone
    have hnil : c.filter (fun t => t.user == u) = [] :=
      List.filter_eq_nil_iff.mpr
        (fun t ht => by
          cases h : (t.user == u)
          · simp
          · exact absurd (by simpa using h) (hnone t ht))
    constructor
    · show F64.listSum ((c.filter (fun t => t.user == u)).map (·.amount)) =
        .finite 0
      rw [hnil]
      rfl
    · show c.filter (fun t => t.user == u) = []
      exact hnil

/-- Witness for C6: the no-match branch at a concrete collection and
query. -/
theorem C6_witness :
    (user_summary "carol" [⟨uuidA, "Alice", "Book", .finite 9, 5⟩]).total_amount =
      .finite 0 ∧
    (user_summary "carol" [⟨uuidA, "Alice", "Book", .finite 9, 5⟩]).transactions = [] :=
  (C6_summary_correct "carol" [⟨uuidA, "Alice", "Book", .finite 9, 5⟩]).2.2.2.2
    (by decide)

/-- The record with exactly the supplied fields replaced (user and item
stored trimmed), as C4 describes the result of a fully valid update. -/
def mergeUpdate (p : UpdateTransaction) (tx : Transaction) : Transaction :=
  ⟨tx.id, (p.user.map rsTrim).getD tx.user, (p.item.map rsTrim).getD tx.item,
   p.amount.getD tx.amount, p.timestamp.getD tx.timestamp⟩

/-- C4: Partial update and id immutability: updating the first record
matching `id` with only valid supplied fields succeeds, modifies exactly
the supplied fields of that record, keeps its id and all other records
unchanged, and the result is visible to a subsequent get. -/
theorem C4_partial_update (persistOk : Bool) (id : Uuid)
    (p : UpdateTransaction) (pre post : List Transaction) (tx : Transaction)
    (hpre : ∀ u ∈ pre, (u.id == id) = false) (htx : (tx.id == id) = true)
    (hu : ∀ u, p.user = some u → rsIsEmpty (rsTrim u) = false)
    (hi : ∀ i, p.item = some i → rsIsEmpty (rsTrim i) = false)
    (ha : ∀ a, p.amount = some a → a.isFinite = true)
    (hp : persistOk = true) :
    update_transaction persistOk id p (pre ++ tx :: post) =
      (.ok (mergeUpdate p tx), pre ++ mergeUpdate p tx :: post) ∧
    get_transaction id
      (update_transaction persistOk id p (pre ++ tx :: post)).2 =
      some (mergeUpdate p tx) := by
  subst hp
  have hv := applyUpdateFields_valid p tx hu hi ha
  have hm := updateFirstMatch_decomp id p pre post tx hpre htx
  rw [hv] at hm
  have hmid : ((mergeUpdate p tx).id == id) = true := htx
  have hfind := find?_first id pre post (mergeUpdate p tx) hpre hmid
  have hstate : update_transaction true id p (pre ++ tx :: post) =
      (.ok (mergeUpdate p tx), pre ++ mergeUpdate p tx :: post) := by
    unfold update_transaction
    rw [hm]
    show (if true = true then _ else _) = _
    rw [if_pos rfl]
    show (match (pre ++ mergeUpdate p tx :: post).find?
        (fun t => t.id == id) with
      | some t => (UpdateResponse.ok t, pre ++ mergeUpdate p tx :: post)
      | none => (UpdateResponse.fatal, pre ++ mergeUpdate p tx :: post)) = _
    rw [hfind]
  refine ⟨hstate, ?_⟩
  rw [hstate]
  show get_transaction id (pre ++ mergeUpdate p tx :: post) =
    some (mergeUpdate p tx)
  unfold get_transaction
  exact hfind

/-- Witness for C4: the spec's example — an update supplying only
`item := "NewItem"` changes only the item field and is seen by get. -/
theorem C4_witness :
    update_transaction true uuidA ⟨none, some "NewItem", none, none⟩
      [⟨uuidA, "Alice", "Book", F64.finite 10, 5⟩,
       ⟨uuidB, "Bob", "Pen", F64.finite 2, 7⟩] =
      (.ok ⟨uuidA, "Alice", "NewItem", F64.finite 10, 5⟩,
       [⟨uuidA, "Alice", "NewItem", F64.finite 10, 5⟩,
        ⟨uuidB, "Bob", "Pen", F64.finite 2, 7⟩]) ∧
    get_transaction uuidA
      (update_transaction true uuidA ⟨none, some "NewItem", none, none⟩
        [⟨uuidA, "Alice", "Book", F64.finite 10, 5⟩,
         ⟨uuidB, "Bob", "Pen", F64.finite 2, 7⟩]).2 =
      some ⟨uuidA, "Alice", "NewItem", F64.finite 10, 5⟩ := by
  have h := C4_partial_update true uuidA ⟨none, some "NewItem", none, none⟩
    [] [⟨uuidB, "Bob", "Pen", F64.finite 2, 7⟩]
    ⟨uuidA, "Alice", "Book", F64.finite 10, 5⟩
    (by intro u hu; cases hu) (by decide)
    (by intro u hu; exact Option.noConfusion hu)
    (by intro i hi2; injection hi2 with h2; subst h2; decide)
    (by intro a ha2; exact Option.noConfusion ha2) rfl
  simp only [List.nil_append] at h
  refine ⟨?_, ?_⟩
  · rw [h.1]
    decide
  · rw [h.2]
    decide

/-- C7: Persistence failure does not roll back: with `persist` failing,
each of create (valid input), update (validated in-memory success) and
delete (matching record) reports a server error while the in-memory
collection keeps the applied mutation, which `list` then observes. -/
theorem C7_persist_failure_no_rollback (freshId : Uuid) (now : Nat)
    (payload : CreateTransaction) (c : List Transaction) (id : Uuid)
    (p : UpdateTransaction) :
    (rsIsEmpty (rsTrim payload.user) = false →
      rsIsEmpty (rsTrim payload.item) = false →
      payload.amount.isFinite = true →
      create_transaction false freshId now payload c =
        (.serverError,
         c ++ [⟨freshId, rsTrim payload.user, rsTrim payload.item,
           payload.amount, payload.timestamp.getD now⟩])) ∧
    (∀ c2 : List Transaction, updateFirstMatch id p c = some (c2, none) →
      update_transaction false id p c = (.serverError, c2)) ∧
    ((c.filter (fun t => t.id != id)).length ≠ c.length →
      delete_transaction false id c =
        (.serverError, c.filter (fun t => t.id != id))) ∧
    (∀ d : List Transaction, list_transactions d = d) := by
  refine ⟨?_, ?_, ?_, fun d => rfl⟩
  · intro hu hi ha
    simp [create_transaction, hu, hi, ha]
  · intro c2 h2
    unfold update_transaction
    rw [h2]
    rfl
  · intro h
    rw [delete_transaction_def, if_neg h, if_neg (by simp)]

/-- Witness for C7 at concrete inputs for all three mutations. -/
theorem C7_witness :
    create_transaction false uuidC 42 ⟨"Alice", "Book", F64.finite 9, none⟩
      [] = (.serverError, [⟨uuidC, "Alice", "Book", F64.finite 9, 42⟩]) ∧
    update_transaction false uuidA ⟨none, some "NewItem", none, none⟩
      [⟨uuidA, "Alice", "Book", F64.finite 10, 5⟩] =
      (.serverError, [⟨uuidA, "Alice", "NewItem", F64.finite 10, 5⟩]) ∧
    delete_transaction false uuidA
      [⟨uuidA, "Alice", "Book", F64.finite 10, 5⟩] = (.serverError, []) := by
  have h := C7_persist_failure_no_rollback uuidC 42
    ⟨"Alice", "Book", F64.finite 9, none⟩
    [⟨uuidA, "Alice", "Book", F64.finite 10, 5⟩] uuidA
    ⟨none, some "NewItem", none, none⟩
  have h2 := C7_persist_failure_no_rollback uuidC 42
    ⟨"Alice", "Book", F64.finite 9, none⟩ [] uuidA
    ⟨none, some "NewItem", none, none⟩
  refine ⟨?_, ?_, ?_⟩
  · rw [h2.1 (by decide) (by decide) (by decide)]
    decide
  · rw [h.2.1 [⟨uuidA, "Alice", "NewItem", F64.finite 10, 5⟩] (by decide)]
  · rw [h.2.2.1 (by decide)]
    decide

/-- C9: No panic: the result-retrieval `.unwrap()` of update (modelled
by the `fatal` response) is never reached, for every input and
persistence outcome of a single operation — after a successful
in-memory update the collection still contains a record with the
searched id. -/
theorem C9_no_fatal_response (persistOk : Bool) (id : Uuid)
    (p : UpdateTransaction) (c : List Transaction) :
    (update_transaction persistOk id p c).1 ≠ .fatal := by
  unfold update_transaction
  rcases h : updateFirstMatch id p c with _ | ⟨c2, e⟩
  · simp
  · rcases e with _ | msg
    · obtain ⟨hmap, hok, t2, ht2, hbeq⟩ := updateFirstMatch_some id p c c2 none h
      have hsome : (c2.find? (fun t => t.id == id)).isSome :=
        List.find?_isSome.mpr ⟨t2, ht2, hbeq⟩
      rcases hf : c2.find? (fun t => t.id == id) with _ | t3
      · rw [hf] at hsome
        exact absurd hsome (by simp)
      · cases persistOk <;> simp [hf]
    · simp

/-- C10 counterexample: an update supplying a valid user together with a
whitespace-only item returns a ValidationError, yet the collection is
NOT unchanged — the valid user, processed first, has already been
applied to the record. -/
theorem C10_counterexample :
    (update_transaction true uuidA ⟨some "NewU", some "  ", none, none⟩
      [⟨uuidA, "Old", "Book", F64.finite 1, 0⟩]).1 =
      .badRequest "item cannot be empty" ∧
    (update_transaction true uuidA ⟨some "NewU", some "  ", none, none⟩
      [⟨uuidA, "Old", "Book", F64.finite 1, 0⟩]).2 =
      [⟨uuidA, "NewU", "Book", F64.finite 1, 0⟩] ∧
    [⟨uuidA, "NewU", "Book", F64.finite 1, 0⟩] ≠
      ([⟨uuidA, "Old", "Book", F64.finite 1, 0⟩] : List Transaction) := by
  decide

/-- C10 amended: when update returns a ValidationError, the collection
is not restored: supplied fields earlier in the processing order (user,
item, amount, timestamp) that passed validation remain applied to the
located record, the failing and later fields are unapplied, the id and
all other records are unchanged, and persist is not called (the result
is the same for both persistence outcomes).  The three rejection cases
— invalid user, invalid item, invalid amount — are covered
exhaustively; a supplied timestamp is never rejected. -/
theorem C10_partial_mutation_on_error (persistOk : Bool) (id : Uuid)
    (p : UpdateTransaction) (pre post : List Transaction) (tx : Transaction)
    (hpre : ∀ u ∈ pre, (u.id == id) = false) (htx : (tx.id == id) = true) :
    (∀ u, p.user = some u → rsIsEmpty (rsTrim u) = true →
      update_transaction persistOk id p (pre ++ tx :: post) =
        (.badRequest "user cannot be empty", pre ++ tx :: post)) ∧
    (∀ i, (∀ u, p.user = some u → rsIsEmpty (rsTrim u) = false) →
      p.item = some i → rsIsEmpty (rsTrim i) = true →
      update_transaction persistOk id p (pre ++ tx :: post) =
        (.badRequest "item cannot be empty",
         pre ++ { tx with user := (p.user.map rsTrim).getD tx.user } :: post)) ∧
    (∀ a, (∀ u, p.user = some u → rsIsEmpty (rsTrim u) = false) →
      (∀ i, p.item = some i → rsIsEmpty (rsTrim i) = false) →
      p.amount = some a → a.isFinite = false →
      update_transaction persistOk id p (pre ++ tx :: post) =
        (.badRequest "amount must be finite",
         pre ++ { tx with user := (p.user.map rsTrim).getD tx.user,
                          item := (p.item.map rsTrim).getD tx.item } :: post)) := by
  refine ⟨?_, ?_, ?_⟩
  · intro u hu huv
    have hfields : applyUpdateFields p tx =
        (tx, some "user cannot be empty") := by
      unfold applyUpdateFields applyUserField
      rw [hu]
      simp [huv]
    have hm := updateFirstMatch_decomp id p pre post tx hpre htx
    rw [hfields] at hm
    unfold update_transaction
    rw [hm]
  · intro i huall hi hiv
    have hfields : applyUpdateFields p tx =
        ({ tx with user := (p.user.map rsTrim).getD tx.user },
         some "item cannot be empty") := by
      rcases hpu : p.user with _ | u
      · unfold applyUpdateFields applyUserField applyItemField
        rw [hpu, hi]
        simp [hiv]
      · have huv := huall u hpu
        unfold applyUpdateFields applyUserField applyItemField
        rw [hpu, hi]
        simp [huv, hiv]
    have hm := updateFirstMatch_decomp id p pre post tx hpre htx
    rw [hfields] at hm
    unfold update_transaction
    rw [hm]
  · intro a huall hiall ha hav
    have hfields : applyUpdateFields p tx =
        ({ tx with user := (p.user.map rsTrim).getD tx.user,
                   item := (p.item.map rsTrim).getD tx.item },
         some "amount must be finite") := by
      rcases hpu : p.user with _ | u <;> rcases hpi : p.item with _ | i
      · unfold applyUpdateFields applyUserField applyItemField applyAmountField
        rw [hpu, hpi, ha]
        simp [hav]
      · have hiv := hiall i hpi
        unfold applyUpdateFields applyUserField applyItemField applyAmountField
        rw [hpu, hpi, ha]
        simp [hiv, hav]
      · have huv := huall u hpu
        unfold applyUpdateFields applyUserField applyItemField applyAmountField
        rw [hpu, hpi, ha]
        simp [huv, hav]
      · have huv := huall u hpu
        have hiv := hiall i hpi
        unfold applyUpdateFields applyUserField applyItemField applyAmountField
        rw [hpu, hpi, ha]
        simp [huv, hiv, hav]
    have hm := updateFirstMatch_decomp id p pre post tx hpre htx
    rw [hfields] at hm
    unfold update_transaction
    rw [hm]

/-- Witness for the amended C10 at the counterexample's input (the
item-failure case, with a valid user already applied). -/
theorem C10_witness :
    update_transaction true uuidA ⟨some "NewU", some "  ", none, none⟩
      ([] ++ ⟨uuidA, "Old", "Book", F64.finite 1, 0⟩ :: []) =
      (.badRequest "item cannot be empty",
       [] ++ ⟨uuidA, "NewU", "Book", F64.finite 1, 0⟩ :: []) := by
  have h := (C10_partial_mutation_on_error true uuidA
    ⟨some "NewU", some "  ", none, none⟩ [] []
    ⟨uuidA, "Old", "Book", F64.finite 1, 0⟩
    (by intro x hx; cases hx) (by decide)).2.1 "  "
    (by intro u hu; injection hu with h2; subst h2; decide) rfl (by decide)
  rw [h]
  decide

/-! ### State characterizations of the mutating handlers, used for the
invariant induction -/

theorem create_state (persistOk : Bool) (freshId : Uuid) (now : Nat)
    (payload : CreateTransaction) (c : List Transaction) :
    (create_transaction persistOk freshId now payload c).2 = c ∨
    ((create_transaction persistOk freshId now payload c).2 =
      c ++ [⟨freshId, rsTrim payload.user, rsTrim payload.item,
        payload.amount, payload.timestamp.getD now⟩] ∧
      rsIsEmpty (rsTrim payload.user) = false ∧
      rsIsEmpty (rsTrim payload.item) = false ∧
      payload.amount.isFinite = true) := by
  cases hu : rsIsEmpty (rsTrim payload.user) with
  | true =>
      left
      simp [create_transaction, hu]
  | false =>
      cases hi : rsIsEmpty (rsTrim payload.item) with
      | true =>
          left
          simp [create_transaction, hu, hi]
      | false =>
          cases ha : payload.amount.isFinite with
          | false =>
              left
              simp [create_transaction, hu, hi, ha]
          | true =>
              right
              refine ⟨?_, rfl, rfl, rfl⟩
              cases hp : persistOk <;>
                simp [create_transaction, hu, hi, ha, hp]

theorem update_state (persistOk : Bool) (id : Uuid) (p : UpdateTransaction)
    (c : List Transaction) :
    (update_transaction persistOk id p c).2 = c ∨
    ∃ e, updateFirstMatch id p c =
      some ((update_transaction persistOk id p c).2, e) := by
  rcases h : updateFirstMatch id p c with _ | ⟨c2, e⟩
  · left
    unfold update_transaction
    rw [h]
  · right
    refine ⟨e, ?_⟩
    have h2 : (update_transaction persistOk id p c).2 = c2 := by
      unfold update_transaction
      rw [h]
      rcases e with _ | msg
      · cases persistOk
        · rfl
        · rcases hf : c2.find? (fun t => t.id == id) with _ | t3 <;> simp [hf]
      · rfl
    rw [h2]

theorem delete_state (persistOk : Bool) (id : Uuid) (c : List Transaction) :
    (delete_transaction persistOk id c).2 = c.filter (fun t => t.id != id) := by
  rw [delete_transaction_def]
  split_ifs <;> rfl

/-- C2 counterexample: `load` validates nothing beyond what serde's
types force, so startup from a perfectly parseable file — valid uuid
strings, but one uuid repeated and one user empty — yields a reachable
collection state violating the invariant. -/
theorem C2_counterexample :
    Reachable [⟨uuidA, "", "x", F64.finite 1, 0⟩,
               ⟨uuidA, "bob", "y", F64.finite 2, 3⟩] ∧
    ¬ Invariant [⟨uuidA, "", "x", F64.finite 1, 0⟩,
                 ⟨uuidA, "bob", "y", F64.finite 2, 3⟩] := by
  constructor
  · have hd := decodeCollection_encodeCollection
      [⟨uuidA, "", "x", F64.finite 1, 0⟩, ⟨uuidA, "bob", "y", F64.finite 2, 3⟩]
      (by decide)
    have he : startupCollection (FileState.content (encodeCollection
        [⟨uuidA, "", "x", F64.finite 1, 0⟩,
         ⟨uuidA, "bob", "y", F64.finite 2, 3⟩])) =
        [⟨uuidA, "", "x", F64.finite 1, 0⟩,
         ⟨uuidA, "bob", "y", F64.finite 2, 3⟩] := by
      unfold startupCollection loadResult
      show (decodeCollection (encodeCollection
        [⟨uuidA, "", "x", F64.finite 1, 0⟩,
         ⟨uuidA, "bob", "y", F64.finite 2, 3⟩])).getD [] = _
      rw [hd]
      rfl
    have h := Reachable.startup (FileState.content (encodeCollection
      [⟨uuidA, "", "x", F64.finite 1, 0⟩,
       ⟨uuidA, "bob", "y", F64.finite 2, 3⟩]))
    rwa [he] at h
  · intro hinv
    exact absurd hinv.1 (by decide)

/-- C2 amended: the invariant does hold in every reachable state,
provided the startup collection already satisfies it (the code trusts
the file it wrote itself) and every generated uuid is fresh (the code
trusts `Uuid::new_v4` not to collide).  Neither assumption is checked by
the code, which is what the counterexample exploits. -/
theorem C2_invariant_preserved (c : List Transaction)
    (h : ReachableFresh c) : Invariant c := by
  induction h with
  | startup fs hinv => exact hinv
  | createStep persistOk freshId now payload hr hfresh ih =>
      rename_i c0
      show Invariant (create_transaction persistOk freshId now payload c0).2
      rcases create_state persistOk freshId now payload c0 with
        hs | ⟨hs, hu, hi2, ha⟩
      · rw [hs]
        exact ih
      · rw [hs]
        constructor
        · rw [List.map_append, List.nodup_append]
          refine ⟨ih.1, by simp, ?_⟩
          intro a hain hain2
          simp only [List.map_cons, List.map_nil, List.mem_singleton] at hain2
          subst hain2
          exact hfresh hain
        · intro t ht
          rcases List.mem_append.mp ht with h2 | h2
          · exact ih.2 t h2
          · simp only [List.mem_singleton] at h2
            subst h2
            refine ⟨?_, ?_, ha⟩
            · show rsIsEmpty (rsTrim (rsTrim payload.user)) = false
              rw [rsTrim_idem]
              exact hu
            · show rsIsEmpty (rsTrim (rsTrim payload.item)) = false
              rw [rsTrim_idem]
              exact hi2
  | updateStep persistOk id p hr ih =>
      rename_i c0
      show Invariant (update_transaction persistOk id p c0).2
      rcases update_state persistOk id p c0 with hs | ⟨e, hs⟩
      · rw [hs]
        exact ih
      · obtain ⟨hmap, hok, _⟩ :=
          updateFirstMatch_some id p c0 (update_transaction persistOk id p c0).2 e hs
        exact ⟨by rw [hmap]; exact ih.1, fun t ht => hok ih.2 t ht⟩
  | deleteStep persistOk id hr ih =>
      rename_i c0
      show Invariant (delete_transaction persistOk id c0).2
      rw [delete_state]
      constructor
      · exact ih.1.sublist ((List.filter_sublist c0).map (·.id))
      · intro t ht
        exact ih.2 t (List.mem_of_mem_filter ht)

/-- Witness for the amended C2: a fresh create on top of an empty
startup yields an invariant-satisfying state. -/
theorem C2_witness :
    Invariant (applyOp [] (Op.create true uuidC 7
      ⟨" Alice ", " Book ", F64.finite 9, none⟩)) :=
  C2_invariant_preserved _
    (ReachableFresh.createStep true uuidC 7
      ⟨" Alice ", " Book ", F64.finite 9, none⟩
      (ReachableFresh.startup FileState.absent
        ⟨List.nodup_nil, fun t ht => absurd ht (List.not_mem_nil t)⟩)
      (by decide))

end Bookkeeping
